import Mathlib

/-!
Verification of the trace analytics and aggregation engine of this
repository (`utils/evaluate.py` and `utils/aggregate.py`).

Python floats are modelled as rationals (`ℚ`); the float value
`float("inf")`, which the source produces as a sentinel and propagates
through sums and divisions, is modelled by the `inf` constructor of the
extended type `QInf` below, whose operations mirror IEEE float
arithmetic on `+inf` (absorbing for `+`, `min`, division by a positive
number).

`math.dist` (Euclidean distance) is embedded through its square
(`distSq` below): the real distance is `Real.sqrt ∘ distSq`, and since
`Real.sqrt` is a monotone map sending exactly the nonpositive reals to
`0`, every property proved here about signs, zeroness and minimisation
of distances transfers verbatim to the actual Euclidean distance.
-/

namespace CAIEval

abbrev Util := ℚ

/-- A finite rational or the float `inf` sentinel. -/
inductive QInf where
  | val (q : Util)
  | inf
deriving DecidableEq, Repr

/-- Float addition restricted to finite values and `+inf`. -/
def QInf.add : QInf → QInf → QInf
  | .val x, .val y => .val (x + y)
  | _, _ => .inf

/-- Python's builtin `min` on floats including `+inf`. -/
def QInf.fmin : QInf → QInf → QInf
  | .inf, y => y
  | .val x, .inf => .val x
  | .val x, .val y => .val (min x y)

/-- Float division by a finite value, as the source applies it: the
denominator is a positive count whenever an `inf` numerator can occur,
and `inf / n = inf` for `n > 0`. -/
def QInf.div : QInf → Util → QInf
  | .val x, n => .val (x / n)
  | .inf, _ => .inf

def QInf.sum (l : List QInf) : QInf :=
  l.foldl QInf.add (.val 0)

/-- The order on floats-with-`+inf`. -/
instance : LE QInf :=
  ⟨fun x y =>
    match x, y with
    | _, .inf => True
    | .inf, .val _ => False
    | .val a, .val b => a ≤ b⟩

instance : DecidableRel (fun (x y : QInf) => x ≤ y) := by
  intro x y
  cases x <;> cases y <;> simp only [LE.le] <;> infer_instance

/-- A pair of per-seat values: the source keys its accumulators by the
actor identifier string; a trace has exactly two actors, seat A (the
first key of `partyprofiles`, index `0`) and seat B (index `1`).  We
model the seat index as a `Bool` (`false` = A, `true` = B), matching the
`is_b` convention of `evaluate.py`. -/
structure Pair (α : Type) where
  a : α
  b : α
deriving DecidableEq, Repr

def Pair.get {α : Type} (p : Pair α) (is_b : Bool) : α :=
  bif is_b then p.b else p.a

def Pair.modify {α : Type} (p : Pair α) (is_b : Bool) (f : α → α) : Pair α :=
  bif is_b then { p with b := f p.b } else { p with a := f p.a }

/-- `math.isclose(x, y)` with the default tolerances
`rel_tol=1e-9, abs_tol=0.0`: `|x-y| <= max(1e-9*max(|x|,|y|), 0)`. -/
def isclose (x y : Util) : Bool :=
  decide (|x - y| ≤ (1 / 1000000000) * max |x| |y|)

/-- Squared Euclidean distance between two utility points; `distance`
(= `math.dist`) in `evaluate.py` is `Real.sqrt` of this. -/
def distSq (x y : Util × Util) : Util :=
  (x.1 - y.1) ^ 2 + (x.2 - y.2) ^ 2

/-- `distance_pareto` of `evaluate.py` (with distances squared, see the
file header): filter the frontier to the candidate points whose utility
for the bidder's own seat and for the opponent's seat both weakly
dominate the bid (`>=` or `math.isclose`), then fold `min` over the
candidate distances starting from `float("inf")`.
A frontier point is modelled by its utility pair `(utility A, utility B)`
(the accompanying bid mapping is never read by the source). -/
def distance_pareto (utility : Util × Util) (is_b : Bool)
    (pareto_front : List (Util × Util)) : QInf :=
  let utility_self := bif is_b then utility.2 else utility.1
  let utility_opponent := bif is_b then utility.1 else utility.2
  let candidates := pareto_front.filterMap (fun point =>
    let utility_pareto_self := bif is_b then point.2 else point.1
    let utility_pareto_opponent := bif is_b then point.1 else point.2
    if (utility_pareto_self ≥ utility_self ∨ isclose utility_pareto_self utility_self = true)
        ∧ (utility_pareto_opponent ≥ utility_opponent ∨
            isclose utility_pareto_opponent utility_opponent = true)
    then some (utility_pareto_self, utility_pareto_opponent)
    else none)
  candidates.foldl
    (fun d pareto_point =>
      QInf.fmin d (.val (distSq (utility_self, utility_opponent) pareto_point)))
    .inf

/-- `get_percentage` of `evaluate.py`. -/
def get_percentage (x y : Util) : Util :=
  if y = 0 then 0 else x / y * 100

/-- Per-seat tallies of the six move classes of the Dans taxonomy. -/
structure MoveCounts where
  fortunate : ℕ
  selfish : ℕ
  concession : ℕ
  unfortunate : ℕ
  nice : ℕ
  silent : ℕ
deriving DecidableEq, Repr

def MoveCounts.zero : MoveCounts := ⟨0, 0, 0, 0, 0, 0⟩

def MoveCounts.total (c : MoveCounts) : ℕ :=
  c.fortunate + c.selfish + c.concession + c.unfortunate + c.nice + c.silent

/-- The six classification conditions, verbatim from the six independent
`if` statements of `evaluate.py` lines 179-190. -/
def fortunateCond (da db : Util) : Prop := da > 0 ∧ db > 0

def selfishCond (da db : Util) : Prop := da > 0 ∧ db ≤ 0

def concessionCond (da db : Util) : Prop := da < 0 ∧ db ≥ 0

def unfortunateCond (da db : Util) : Prop := da ≤ 0 ∧ db < 0

def niceCond (da db : Util) : Prop := isclose da 0 = true ∧ db > 0

def silentCond (da db : Util) : Prop := isclose da 0 = true ∧ isclose db 0 = true

instance (da db : Util) : Decidable (fortunateCond da db) := by
  unfold fortunateCond; infer_instance

instance (da db : Util) : Decidable (selfishCond da db) := by
  unfold selfishCond; infer_instance

instance (da db : Util) : Decidable (concessionCond da db) := by
  unfold concessionCond; infer_instance

instance (da db : Util) : Decidable (unfortunateCond da db) := by
  unfold unfortunateCond; infer_instance

instance (da db : Util) : Decidable (niceCond da db) := by
  unfold niceCond; infer_instance

instance (da db : Util) : Decidable (silentCond da db) := by
  unfold silentCond; infer_instance

/-- The six independent tally `if`s of `evaluate.py` lines 179-190,
applied to one offer's utility deltas. -/
def tallyMove (da db : Util) (c : MoveCounts) : MoveCounts :=
  let c1 := if fortunateCond da db then { c with fortunate := c.fortunate + 1 } else c
  let c2 := if selfishCond da db then { c1 with selfish := c1.selfish + 1 } else c1
  let c3 := if concessionCond da db then { c2 with concession := c2.concession + 1 } else c2
  let c4 := if unfortunateCond da db then { c3 with unfortunate := c3.unfortunate + 1 } else c3
  let c5 := if niceCond da db then { c4 with nice := c4.nice + 1 } else c4
  if silentCond da db then { c5 with silent := c5.silent + 1 } else c5

/-- One entry of `results_trace["actions"]`.  The two utility values are
listed in `partyprofiles` order (agent A first), exactly the order in
which the source reads `offer["utilities"].items()` into a list.  The
actor identifier is resolved to its seat (`agents.index(agent)` in the
source).  Actions carrying neither an `"Offer"` nor an `"Accept"` key
are modelled by `other` (the source's `if`/`elif` skips them). -/
inductive Action where
  | offer (actor : Bool) (uA uB : Util)
  | accept (actor : Bool) (uA uB : Util)
  | other
deriving DecidableEq, Repr

def Action.isAccept : Action → Bool
  | .accept _ _ _ => true
  | _ => false

def Action.isOffer : Action → Bool
  | .offer _ _ _ => true
  | _ => false

/-- The parsed `specials.json` of a domain: the fields of the file that
`evaluate` reads. -/
structure Specials where
  pareto_front : List (Util × Util)
  nash : Util × Util
  kalai : Util × Util
deriving DecidableEq, Repr

/-- One line appended to a per-seat CSV file during the pass over the
actions: `deltas_<name>.csv` receives the two deltas, and
`distances_<name>.csv` the Pareto distance of the bid. -/
inductive CsvLine where
  | deltas (actor : Bool) (da db : Util)
  | distances (actor : Bool) (d : QInf)
deriving DecidableEq

/-- The mutable state of `evaluate`'s single pass over the actions:
the agreement variables of lines 129-132, the per-seat `defaultdict`
accumulators of lines 136-154, and the CSV lines written so far. -/
structure EvalState where
  agreement : Bool
  agreement_utility : Util × Util
  agreement_actor : Option Bool
  num_moves : Pair ℕ
  utility_prev : Pair (Util × Util)
  counts : Pair MoveCounts
  total_distance : Pair QInf
  writes : List CsvLine
deriving DecidableEq

def initState : EvalState where
  agreement := false
  agreement_utility := (0, 0)
  agreement_actor := none
  num_moves := ⟨0, 0⟩
  utility_prev := ⟨(0, 0), (0, 0)⟩
  counts := ⟨MoveCounts.zero, MoveCounts.zero⟩
  total_distance := ⟨.val 0, .val 0⟩
  writes := []

/-- The body of the `for action in results_trace["actions"]` loop of
`evaluate` (lines 156-214). -/
def stepAction (sp : Specials) (st : EvalState) (a : Action) : EvalState :=
  match a with
  | .offer actor uA uB =>
    let prev := st.utility_prev.get actor
    let da := uA - prev.1
    let db := uB - prev.2
    let d := distance_pareto (uA, uB) actor sp.pareto_front
    { st with
      num_moves := st.num_moves.modify actor (· + 1)
      counts := st.counts.modify actor (tallyMove da db)
      total_distance := st.total_distance.modify actor (fun t => t.add d)
      utility_prev := st.utility_prev.modify actor (fun _ => (uA, uB))
      writes := st.writes ++ [.deltas actor da db, .distances actor d] }
  | .accept actor uA uB =>
    { st with
      agreement := true
      agreement_actor := some actor
      agreement_utility := (uA, uB) }
  | .other => st

def runActionsFrom (sp : Specials) (st : EvalState) (acts : List Action) : EvalState :=
  acts.foldl (stepAction sp) st

def runActions (sp : Specials) (acts : List Action) : EvalState :=
  runActionsFrom sp initState acts

@[simp]
theorem runActionsFrom_nil (sp : Specials) (st : EvalState) :
    runActionsFrom sp st [] = st := rfl

@[simp]
theorem runActionsFrom_cons (sp : Specials) (st : EvalState) (a : Action)
    (l : List Action) :
    runActionsFrom sp st (a :: l) = runActionsFrom sp (stepAction sp st a) l := rfl

/-- The `evaluation_metrics` dictionary of `evaluate` (lines 216-227).
The constant string fields (`domain`, the two agent names) are omitted:
they are copied from the input unchanged.  The two distance fields hold
the squared Euclidean distance (see the file header); the source's
values are their square roots. -/
structure EvalMetrics where
  agreement : Bool
  agreed_by : Option Bool
  utility_a : Util
  utility_b : Util
  distance_nashSq : Util
  distance_kalaiSq : Util
deriving DecidableEq

/-- One seat's entries in the `dans_metrics` dictionary of `evaluate`
(lines 230-267); percentages are `Util`s and the two sensitivities live
in `QInf` because the source produces `"inf"` / `float("inf")`
sentinels for them. -/
structure DansRow where
  num_offers : ℕ
  fortunate_pct : Util
  selfish_pct : Util
  concession_pct : Util
  unfortunate_pct : Util
  nice_pct : Util
  silent_pct : Util
  behav_sens : QInf
  pref_sens : QInf
deriving DecidableEq

/-- Lines 230-267 of `evaluate`, for one seat. -/
def dansRowFor (st : EvalState) (actor : Bool) : DansRow :=
  let num_offers := st.num_moves.get actor
  let c := st.counts.get actor
  let numerator : ℕ := c.fortunate + c.nice + c.concession
  let denominator : ℕ := c.unfortunate + c.silent + c.selfish
  { num_offers := num_offers
    fortunate_pct := get_percentage c.fortunate num_offers
    selfish_pct := get_percentage c.selfish num_offers
    concession_pct := get_percentage c.concession num_offers
    unfortunate_pct := get_percentage c.unfortunate num_offers
    nice_pct := get_percentage c.nice num_offers
    silent_pct := get_percentage c.silent num_offers
    behav_sens := if denominator = 0 then .inf
      else .val ((numerator : Util) / (denominator : Util))
    pref_sens := if num_offers ≠ 0 then (st.total_distance.get actor).div num_offers
      else st.total_distance.get actor }

structure SessionMetrics where
  evalm : EvalMetrics
  dans : Pair DansRow
deriving DecidableEq

/-- The pure computation of `evaluate` given the parsed specials file:
run the pass over the actions and assemble the two metric records. -/
def evaluateCore (sp : Specials) (acts : List Action) : SessionMetrics :=
  let st := runActions sp acts
  { evalm :=
    { agreement := st.agreement
      agreed_by := st.agreement_actor
      utility_a := st.agreement_utility.1
      utility_b := st.agreement_utility.2
      distance_nashSq := distSq st.agreement_utility sp.nash
      distance_kalaiSq := distSq st.agreement_utility sp.kalai }
    dans := ⟨dansRowFor st false, dansRowFor st true⟩ }

inductive EvalError where
  | fileNotFound
deriving DecidableEq

/-- `evaluate` opens `domains/<domain>/specials.json` (lines 121-127)
before anything else is computed; an absent or unreadable file raises
there, unhandled, so nothing downstream of line 127 runs.  The argument
`sp?` is the outcome of that `open`: `none` models the missing file. -/
def evaluate (sp? : Option Specials) (acts : List Action) :
    Except EvalError SessionMetrics :=
  match sp? with
  | none => .error .fileNotFound
  | some sp => .ok (evaluateCore sp acts)

/-- `evaluate` together with its file-system effect: the per-offer CSV
lines are appended (mode `"a"`) to whatever the files already hold. -/
def evaluateFS (sp : Specials) (acts : List Action) (fs : List CsvLine) :
    SessionMetrics × List CsvLine :=
  (evaluateCore sp acts, fs ++ (runActions sp acts).writes)

/-! ## Projections and derived views used by the proofs -/

/-- The components of the evaluation state that the `Offer` branch of
the loop reads and writes (the `Accept` branch touches none of them). -/
structure MoveData where
  num_moves : Pair ℕ
  utility_prev : Pair (Util × Util)
  counts : Pair MoveCounts
  total_distance : Pair QInf
  writes : List CsvLine
deriving DecidableEq

def EvalState.moveData (st : EvalState) : MoveData :=
  ⟨st.num_moves, st.utility_prev, st.counts, st.total_distance, st.writes⟩

/-- The last element of the action list tagged `Accept`, mirroring the
source's overwrite-on-every-`Accept` semantics. -/
def lastAcceptOf (acts : List Action) : Option Action :=
  acts.foldl (fun acc a => bif a.isAccept then some a else acc) none

/-- The per-offer Pareto distances recorded for one seat, in order:
the lines of that seat's `distances_<name>.csv`. -/
def seatDistances (st : EvalState) (seat : Bool) : List QInf :=
  st.writes.filterMap (fun w =>
    match w with
    | .distances a d => if a == seat then some d else none
    | _ => none)

/-! ## The aggregation engine (`utils/aggregate.py`) -/

/-- One row of a `tournament_evaluation.csv` as `aggregate.py` reads it
back (lines 36-50): the textual columns (`domain`, agent names) are
only copied through and are omitted.  `agreement` models the string
comparison `session["agreement"] == "True"`. -/
structure EvalRow where
  session_id : ℕ
  agreement : Bool
  utility_a : Util
  utility_b : Util
  distance_nash : Util
  distance_kalai : Util
deriving DecidableEq, Repr

/-- The per-ordinal accumulator of `aggregate.py` lines 35-50 (one
`defaultdict`; `num_agreements` is accumulated with `+= 1`). -/
structure EvalTotals where
  num_agreements : ℕ
  utility_a : Util
  utility_b : Util
  distance_nash : Util
  distance_kalai : Util
deriving DecidableEq, Repr

def EvalTotals.zero : EvalTotals := ⟨0, 0, 0, 0, 0⟩

/-- The body of the `if agreement:` block, lines 40-50. -/
def incTotals (t : EvalTotals) (r : EvalRow) : EvalTotals :=
  { num_agreements := t.num_agreements + 1
    utility_a := t.utility_a + r.utility_a
    utility_b := t.utility_b + r.utility_b
    distance_nash := t.distance_nash + r.distance_nash
    distance_kalai := t.distance_kalai + r.distance_kalai }

/-- One iteration of the totals loop (lines 36-50): only rows whose
`agreement` column parsed to true touch the accumulator. -/
def evalTotalsStep (m : ℕ → EvalTotals) (r : EvalRow) : ℕ → EvalTotals :=
  if r.agreement then
    Function.update m r.session_id (incTotals (m r.session_id) r)
  else m

/-- `evaluation_totals` of `aggregate.py`: the nested loop over every
tournament's evaluation rows.  The source stores the accumulators in a
list indexed by `session_id`; we model it as a total map. -/
def evaluation_totals (evs : List (List EvalRow)) : ℕ → EvalTotals :=
  evs.foldl (fun m ev => ev.foldl evalTotalsStep m) (fun _ => EvalTotals.zero)

/-- All rows of all tournaments that reached agreement for the given
ordinal: the rows over which the source accumulates. -/
def agreedRows (evs : List (List EvalRow)) (sid : ℕ) : List EvalRow :=
  (evs.flatten).filter (fun r => r.agreement && r.session_id == sid)

/-- One row of `aggregate_evaluation.csv` (lines 55-88); textual
columns again omitted. -/
structure AggEvalRow where
  session_id : ℕ
  num_agreements : ℕ
  num_tournaments : ℕ
  utility_a : Util
  utility_b : Util
  distance_nash : Util
  distance_kalai : Util
deriving DecidableEq, Repr

/-- Lines 55-88 of `aggregate.py` for one row of the first tournament's
evaluation list. -/
def aggEvalRowFor (evs : List (List EvalRow)) (r : EvalRow) : AggEvalRow :=
  let t := evaluation_totals evs r.session_id
  { session_id := r.session_id
    num_agreements := t.num_agreements
    num_tournaments := evs.length
    utility_a := if t.num_agreements ≠ 0 then t.utility_a / (t.num_agreements : Util) else 0
    utility_b := if t.num_agreements ≠ 0 then t.utility_b / (t.num_agreements : Util) else 0
    distance_nash := if t.num_agreements ≠ 0 then t.distance_nash / (t.num_agreements : Util) else 0
    distance_kalai := if t.num_agreements ≠ 0 then t.distance_kalai / (t.num_agreements : Util) else 0 }

/-- `evaluation_aggregate`: one output row per row of the first
tournament's evaluation list (the source reads `evaluation_list[0]`,
crashing on an empty list; the empty case is unreachable). -/
def evaluation_aggregate (evs : List (List EvalRow)) : List AggEvalRow :=
  match evs with
  | [] => []
  | ev0 :: _ => ev0.map (aggEvalRowFor evs)

/-- One row of a `tournament_dans.csv` as `aggregate.py` reads it back
(lines 96-117).  The actor name string is modelled by its seat; the
`behav_sens` column is read but never used by the aggregation and is
omitted.  `num_offers` and the percentages are parsed with `float`, and
`pref_sens` may parse to `float("inf")` (the sentinel `evaluate` can
emit), hence `QInf`. -/
structure DansCsvRow where
  session_id : ℕ
  agent : Bool
  num_offers : Util
  fortunate_pct : Util
  selfish_pct : Util
  concession_pct : Util
  unfortunate_pct : Util
  nice_pct : Util
  silent_pct : Util
  pref_sens : QInf
deriving DecidableEq, Repr

/-- The per-(ordinal, seat) accumulator of lines 95-117. -/
structure DansTotals where
  num_offers : Util
  fortunate_pct : Util
  selfish_pct : Util
  concession_pct : Util
  unfortunate_pct : Util
  nice_pct : Util
  silent_pct : Util
  pref_sens : QInf
deriving DecidableEq, Repr

def DansTotals.zero : DansTotals := ⟨0, 0, 0, 0, 0, 0, 0, .val 0⟩

/-- Lines 101-117: every row is accumulated; no agreement flag is
consulted (the dans CSV does not even carry one). -/
def incDans (t : DansTotals) (r : DansCsvRow) : DansTotals :=
  { num_offers := t.num_offers + r.num_offers
    fortunate_pct := t.fortunate_pct + r.fortunate_pct
    selfish_pct := t.selfish_pct + r.selfish_pct
    concession_pct := t.concession_pct + r.concession_pct
    unfortunate_pct := t.unfortunate_pct + r.unfortunate_pct
    nice_pct := t.nice_pct + r.nice_pct
    silent_pct := t.silent_pct + r.silent_pct
    pref_sens := t.pref_sens.add r.pref_sens }

def dansTotalsStep (m : ℕ × Bool → DansTotals) (r : DansCsvRow) : ℕ × Bool → DansTotals :=
  Function.update m (r.session_id, r.agent) (incDans (m (r.session_id, r.agent)) r)

/-- `dans_totals` of `aggregate.py`: the nested loop over every
tournament's dans rows (lines 95-117). -/
def dans_totals (ds : List (List DansCsvRow)) : ℕ × Bool → DansTotals :=
  ds.foldl (fun m d => d.foldl dansTotalsStep m) (fun _ => DansTotals.zero)

/-- All dans rows of all tournaments for a given (ordinal, seat) key. -/
def dansGroup (ds : List (List DansCsvRow)) (sid : ℕ) (agent : Bool) :
    List DansCsvRow :=
  (ds.flatten).filter (fun r => r.session_id == sid && r.agent == agent)

/-- One row of `dans_evaluation.csv`, lines 122-165. -/
structure DansAggRow where
  session_id : ℕ
  agent : Bool
  num_tournaments : ℕ
  num_offers : Util
  fortunate_pct : Util
  selfish_pct : Util
  concession_pct : Util
  unfortunate_pct : Util
  nice_pct : Util
  silent_pct : Util
  behav_sens : QInf
  pref_sens : QInf
deriving DecidableEq, Repr

/-- Lines 124-165 of `aggregate.py` for one (ordinal, seat) key.  (The
source picks the seat for the i-th emitted row from the per-ordinal key
list in first-appearance order — seat A then seat B for well-formed
inputs — and then computes exactly the fields below from the key.) -/
def dansAggRowFor (ds : List (List DansCsvRow)) (sid : ℕ) (agent : Bool) :
    DansAggRow :=
  let num_tournaments : ℕ := ds.length
  let t := dans_totals ds (sid, agent)
  let fortunate := t.fortunate_pct / (num_tournaments : Util)
  let selfish := t.selfish_pct / (num_tournaments : Util)
  let concession := t.concession_pct / (num_tournaments : Util)
  let unfortunate := t.unfortunate_pct / (num_tournaments : Util)
  let nice := t.nice_pct / (num_tournaments : Util)
  let silent := t.silent_pct / (num_tournaments : Util)
  let numerator := fortunate + nice + concession
  let denominator := unfortunate + silent + selfish
  { session_id := sid
    agent := agent
    num_tournaments := num_tournaments
    num_offers := t.num_offers
    fortunate_pct := fortunate
    selfish_pct := selfish
    concession_pct := concession
    unfortunate_pct := unfortunate
    nice_pct := nice
    silent_pct := silent
    behav_sens := if denominator = 0 then .inf else .val (numerator / denominator)
    pref_sens := t.pref_sens.div (num_tournaments : Util) }

/-! ## Definitions taken from the claims' wording (for refinement
comparisons only; each is compared against the source-derived
definition above) -/

/-- The preference sensitivity as claim C5 words it: the running total
of the per-offer Pareto distances divided by the offer count, *ignoring
any `+inf` individual distances*, and `0` when there are no offers. -/
def claimPrefSens (distances : List QInf) (numOffers : ℕ) : QInf :=
  if numOffers = 0 then .val 0
  else (QInf.sum (distances.filter (fun d => d != QInf.inf))).div (numOffers : Util)

/-- One aggregated field as claim C6 words it: sum the field only over
the member runs whose session reached agreement, and divide by the
total number of member runs.  Each entry of `runs` pairs a member run's
agreement flag with its value of the field. -/
def claimAggregatedField (runs : List (Bool × Util)) : Util :=
  ((runs.filter (fun r => r.1)).map (fun r => r.2)).sum / (runs.length : Util)

/-! ## Concrete inputs used by witnesses and counterexamples -/

/-- A domain whose nash point is (0.7, 0.5) and kalai point (0.5, 0.5),
with a one-point frontier. -/
def exSpecials : Specials := ⟨[(3/5, 2/5)], (7/10, 1/2), (1/2, 1/2)⟩

/-- A trace with one offer and no accept. -/
def exNoAcceptActs : List Action := [.offer false (1/2) (1/2)]

/-- Scenario 1 of the spec: seat A offers (0.5,0.5), (0.6,0.4),
(0.6,0.4); seat B accepts at (0.6,0.4). -/
def exScenarioActs : List Action :=
  [.offer false (1/2) (1/2), .offer false (3/5) (2/5),
   .offer false (3/5) (2/5), .accept true (3/5) (2/5)]

/-- A domain whose only frontier point leaves the bid (0.9, 0.9) with
no weakly dominating candidate, producing the `+inf` distance. -/
def exInfSpecials : Specials := ⟨[(1/2, 1/2)], (1/2, 1/2), (1/2, 1/2)⟩

def exInfActs : List Action := [.offer false (9/10) (9/10)]

/-- A trace in which an early Accept is followed by a later one, so the
overwrite of the agreement variables is observable. -/
def exOverwriteActs : List Action :=
  [.offer false (1/2) (1/2), .accept false (1/2) (1/2),
   .offer true (3/10) (9/10), .accept true (3/5) (2/5)]

/-- Scenario 3 of the spec, evaluation side: two tournaments, same
matchup ordinal 1; run 1 reaches agreement with utility (0.6, 0.4),
run 2 does not. -/
def exEvalRow1 : EvalRow := ⟨1, true, 3/5, 2/5, 1/10, 1/5⟩

def exEvalRow2 : EvalRow := ⟨1, false, 0, 0, 0, 0⟩

def exEvs : List (List EvalRow) := [[exEvalRow1], [exEvalRow2]]

/-- Two tournaments' dans rows for ordinal 1, seat A: both report 100%
fortunate moves; only the first run's session reached agreement (see
`exEvs`). -/
def exDansRow : DansCsvRow := ⟨1, false, 10, 100, 0, 0, 0, 0, 0, .val 0⟩

def exDans : List (List DansCsvRow) := [[exDansRow], [exDansRow]]

example :
    distance_pareto (1/2, 1/2) false [(3/5, 3/5), (1, 0)] = .val (1/50) := by
  norm_num [distance_pareto, isclose, distSq, QInf.fmin, List.filterMap_cons,
    List.filterMap_nil, List.foldl_cons, List.foldl_nil, abs_of_nonneg,
    sup_eq_max, max_def]

example : distance_pareto (9/10, 9/10) false [(1/2, 1/2)] = .inf := by
  norm_num [distance_pareto, isclose, distSq, QInf.fmin, List.filterMap_cons,
    List.filterMap_nil, List.foldl_cons, List.foldl_nil, abs_of_nonneg,
    sup_eq_max, max_def]

example : (evaluateCore ⟨[], (0, 0), (0, 0)⟩ []).evalm.agreement = false := by
  rfl

example :
    (evaluateCore ⟨[(3/5, 2/5)], (7/10, 1/2), (1/2, 1/2)⟩
      [.offer false (1/2) (1/2), .offer false (3/5) (2/5),
       .accept true (3/5) (2/5)]).evalm.utility_a = 3/5 := by
  norm_num [evaluateCore, runActions, stepAction, initState,
    distance_pareto, isclose, distSq, QInf.fmin, QInf.add, tallyMove,
    Pair.get, Pair.modify, fortunateCond, selfishCond, concessionCond,
    unfortunateCond, niceCond, silentCond, List.filterMap_cons,
    List.filterMap_nil, List.foldl_cons, List.foldl_nil, abs_of_nonneg,
    sup_eq_max, max_def]

/-! ## Helper lemmas -/

theorem QInf.val_le_val {a b : Util} : (QInf.val a ≤ QInf.val b) ↔ a ≤ b :=
  Iff.rfl

theorem QInf.le_infty (x : QInf) : x ≤ QInf.inf := by
  cases x <;> trivial

theorem QInf.not_inf_le_val (a : Util) : ¬ (QInf.inf ≤ QInf.val a) :=
  fun h => h

theorem QInf.le_antisymm {x y : QInf} (h1 : x ≤ y) (h2 : y ≤ x) : x = y := by
  cases x <;> cases y
  · exact congrArg QInf.val ((QInf.val_le_val.mp h1).antisymm (QInf.val_le_val.mp h2))
  · exact absurd h2 (QInf.not_inf_le_val _)
  · exact absurd h1 (QInf.not_inf_le_val _)
  · rfl

theorem QInf.fmin_le_left (x y : QInf) : QInf.fmin x y ≤ x := by
  cases x <;> cases y <;> simp [QInf.fmin, QInf.val_le_val, QInf.le_infty,
    min_le_left]

theorem QInf.fmin_le_right (x y : QInf) : QInf.fmin x y ≤ y := by
  cases x <;> cases y <;> simp [QInf.fmin, QInf.val_le_val, QInf.le_infty,
    min_le_right]

theorem QInf.val_zero_le_fmin {x : QInf} {q : Util} (h1 : QInf.val 0 ≤ x)
    (h2 : 0 ≤ q) : QInf.val 0 ≤ QInf.fmin x (.val q) := by
  cases x
  · exact le_min h1 h2
  · exact h2

theorem QInf.zero_add (x : QInf) : (QInf.val 0).add x = x := by
  cases x <;> simp [QInf.add]

theorem QInf.add_assoc (x y z : QInf) : (x.add y).add z = x.add (y.add z) := by
  cases x <;> cases y <;> cases z <;> simp [QInf.add] <;> ring

theorem QInf.foldl_add_shift (a : QInf) (l : List QInf) :
    l.foldl QInf.add a = a.add (QInf.sum l) := by
  induction l generalizing a with
  | nil => cases a <;> simp [QInf.sum, QInf.add]
  | cons x l ih =>
    rw [QInf.sum, List.foldl_cons, List.foldl_cons, ih, ih ((QInf.val 0).add x),
      QInf.zero_add, QInf.add_assoc]

theorem QInf.sum_cons (x : QInf) (l : List QInf) :
    QInf.sum (x :: l) = x.add (QInf.sum l) := by
  rw [QInf.sum, List.foldl_cons, QInf.foldl_add_shift, QInf.zero_add]

theorem QInf.sum_append (l1 l2 : List QInf) :
    QInf.sum (l1 ++ l2) = (QInf.sum l1).add (QInf.sum l2) := by
  rw [QInf.sum, List.foldl_append, QInf.foldl_add_shift]
  rfl

theorem Pair.get_modify {α : Type} (p : Pair α) (b c : Bool) (f : α → α) :
    (p.modify b f).get c = if c = b then f (p.get c) else p.get c := by
  cases b <;> cases c <;> simp [Pair.get, Pair.modify]

theorem isclose_zero_iff (d : Util) : isclose d 0 = true ↔ d = 0 := by
  unfold isclose
  rw [decide_eq_true_eq, sub_zero, abs_zero, max_eq_left (abs_nonneg d)]
  constructor
  · intro h
    have h0 : |d| ≤ 0 := by linarith
    exact abs_eq_zero.mp (le_antisymm h0 (abs_nonneg d))
  · rintro rfl
    simp

theorem niceCond_iff (da db : Util) : niceCond da db ↔ da = 0 ∧ db > 0 := by
  unfold niceCond
  rw [isclose_zero_iff]

theorem silentCond_iff (da db : Util) : silentCond da db ↔ da = 0 ∧ db = 0 := by
  unfold silentCond
  rw [isclose_zero_iff, isclose_zero_iff]

/-- Exactly one of the six classification conditions holds at every
pair of deltas. -/
theorem classify_indicator_sum (da db : Util) :
    (if fortunateCond da db then (1 : ℕ) else 0)
      + (if selfishCond da db then 1 else 0)
      + (if concessionCond da db then 1 else 0)
      + (if unfortunateCond da db then 1 else 0)
      + (if niceCond da db then 1 else 0)
      + (if silentCond da db then 1 else 0) = 1 := by
  rcases lt_trichotomy da 0 with ha | rfl | ha
  · rcases lt_trichotomy db 0 with hb | rfl | hb
    · simp [fortunateCond, selfishCond, concessionCond, unfortunateCond,
        niceCond_iff, silentCond_iff, ha, hb, ha.le, hb.le, ha.ne, hb.ne,
        asymm ha, asymm hb, not_le.mpr ha, not_le.mpr hb]
    · simp [fortunateCond, selfishCond, concessionCond, unfortunateCond,
        niceCond_iff, silentCond_iff, ha, ha.le, ha.ne, asymm ha]
    · simp [fortunateCond, selfishCond, concessionCond, unfortunateCond,
        niceCond_iff, silentCond_iff, ha, hb, ha.le, hb.le, ha.ne, hb.ne',
        asymm ha, asymm hb, not_le.mpr hb]
  · rcases lt_trichotomy db 0 with hb | rfl | hb
    · simp [fortunateCond, selfishCond, concessionCond, unfortunateCond,
        niceCond_iff, silentCond_iff, hb, hb.le, hb.ne, asymm hb]
    · simp [fortunateCond, selfishCond, concessionCond, unfortunateCond,
        niceCond_iff, silentCond_iff]
    · simp [fortunateCond, selfishCond, concessionCond, unfortunateCond,
        niceCond_iff, silentCond_iff, hb, hb.le, hb.ne', asymm hb,
        not_le.mpr hb]
  · rcases lt_trichotomy db 0 with hb | rfl | hb
    · simp [fortunateCond, selfishCond, concessionCond, unfortunateCond,
        niceCond_iff, silentCond_iff, ha, hb, ha.le, hb.le, ha.ne', hb.ne,
        asymm ha, asymm hb, not_le.mpr ha]
    · simp [fortunateCond, selfishCond, concessionCond, unfortunateCond,
        niceCond_iff, silentCond_iff, ha, ha.le, ha.ne', asymm ha,
        not_le.mpr ha]
    · simp [fortunateCond, selfishCond, concessionCond, unfortunateCond,
        niceCond_iff, silentCond_iff, ha, hb, ha.le, hb.le, ha.ne', hb.ne',
        asymm ha, asymm hb, not_le.mpr ha, not_le.mpr hb]

theorem tallyMove_total_indicator (da db : Util) (c : MoveCounts) :
    (tallyMove da db c).total = c.total
      + ((if fortunateCond da db then (1 : ℕ) else 0)
        + (if selfishCond da db then 1 else 0)
        + (if concessionCond da db then 1 else 0)
        + (if unfortunateCond da db then 1 else 0)
        + (if niceCond da db then 1 else 0)
        + (if silentCond da db then 1 else 0)) := by
  simp only [tallyMove, MoveCounts.total]
  split_ifs <;> simp <;> omega

theorem tallyMove_total (da db : Util) (c : MoveCounts) :
    (tallyMove da db c).total = c.total + 1 := by
  rw [tallyMove_total_indicator, classify_indicator_sum]

/-! ## Claims -/

/-- C1: `classify` is total and the six move classes are mutually
exclusive: for every pair of utility deltas `(deltaA, deltaB)` exactly
one of the six conditions fortunate, selfish, concession, unfortunate,
nice, silent holds (the indicator sum is `1`), so applying the tally of
one Offer increments exactly one class counter (the total count grows
by exactly one). -/
theorem classify_exactly_one (da db : Util) (c : MoveCounts) :
    ((if fortunateCond da db then (1 : ℕ) else 0)
      + (if selfishCond da db then 1 else 0)
      + (if concessionCond da db then 1 else 0)
      + (if unfortunateCond da db then 1 else 0)
      + (if niceCond da db then 1 else 0)
      + (if silentCond da db then 1 else 0) = 1)
    ∧ (tallyMove da db c).total = c.total + 1 :=
  ⟨classify_indicator_sum da db, tallyMove_total da db c⟩

theorem QInf.le_refl (x : QInf) : x ≤ x := by
  cases x
  · exact QInf.val_le_val.mpr le_rfl
  · trivial

theorem QInf.le_trans {x y z : QInf} (h1 : x ≤ y) (h2 : y ≤ z) : x ≤ z := by
  cases x <;> cases y <;> cases z
  · exact QInf.val_le_val.mpr ((QInf.val_le_val.mp h1).trans (QInf.val_le_val.mp h2))
  · trivial
  · exact absurd h2 (QInf.not_inf_le_val _)
  · trivial
  · exact absurd h1 (QInf.not_inf_le_val _)
  · trivial
  · exact absurd h2 (QInf.not_inf_le_val _)
  · trivial

theorem QInf.fmin_eq_or (x y : QInf) : QInf.fmin x y = x ∨ QInf.fmin x y = y := by
  cases x <;> cases y
  · exact (min_choice _ _).imp (congrArg QInf.val) (congrArg QInf.val)
  · exact Or.inl rfl
  · exact Or.inr rfl
  · exact Or.inl rfl

theorem distSq_nonneg (x y : Util × Util) : 0 ≤ distSq x y :=
  add_nonneg (sq_nonneg _) (sq_nonneg _)

theorem distSq_self (x : Util × Util) : distSq x x = 0 := by
  simp [distSq]

theorem distSq_eq_zero_iff (x y : Util × Util) : distSq x y = 0 ↔ x = y := by
  unfold distSq
  constructor
  · intro h
    have h1 : (x.1 - y.1) ^ 2 = 0 := by nlinarith [sq_nonneg (x.1 - y.1), sq_nonneg (x.2 - y.2)]
    have h2 : (x.2 - y.2) ^ 2 = 0 := by nlinarith [sq_nonneg (x.1 - y.1), sq_nonneg (x.2 - y.2)]
    have e1 : x.1 = y.1 := sub_eq_zero.mp (pow_eq_zero_iff two_ne_zero |>.mp h1)
    have e2 : x.2 = y.2 := sub_eq_zero.mp (pow_eq_zero_iff two_ne_zero |>.mp h2)
    exact Prod.ext_iff.mpr ⟨e1, e2⟩
  · rintro rfl
    simp

theorem foldl_fmin_nonneg (u : Util × Util) (l : List (Util × Util)) (d0 : QInf)
    (h : QInf.val 0 ≤ d0) :
    QInf.val 0 ≤ l.foldl (fun d c => QInf.fmin d (.val (distSq u c))) d0 := by
  induction l generalizing d0 with
  | nil => exact h
  | cons c l ih =>
    exact ih _ (QInf.val_zero_le_fmin h (distSq_nonneg u c))

theorem foldl_fmin_le_init (u : Util × Util) (l : List (Util × Util)) (d0 : QInf) :
    l.foldl (fun d c => QInf.fmin d (.val (distSq u c))) d0 ≤ d0 := by
  induction l generalizing d0 with
  | nil => exact QInf.le_refl d0
  | cons c l ih =>
    exact QInf.le_trans (ih _) (QInf.fmin_le_left _ _)

theorem foldl_fmin_le_mem (u : Util × Util) (l : List (Util × Util)) (d0 : QInf) :
    ∀ c ∈ l, l.foldl (fun d c2 => QInf.fmin d (.val (distSq u c2))) d0 ≤ .val (distSq u c) := by
  induction l generalizing d0 with
  | nil => intro c hc; cases hc
  | cons c0 l ih =>
    intro c hc
    rcases List.mem_cons.mp hc with rfl | hc
    · exact QInf.le_trans (foldl_fmin_le_init u l _) (QInf.fmin_le_right _ _)
    · exact ih _ c hc

theorem foldl_fmin_mem_or_init (u : Util × Util) (l : List (Util × Util)) (d0 : QInf) :
    l.foldl (fun d c => QInf.fmin d (.val (distSq u c))) d0 = d0
      ∨ ∃ c ∈ l, l.foldl (fun d c2 => QInf.fmin d (.val (distSq u c2))) d0 = .val (distSq u c) := by
  induction l generalizing d0 with
  | nil => exact Or.inl rfl
  | cons c0 l ih =>
    rcases ih (QInf.fmin d0 (.val (distSq u c0))) with h | ⟨c, hc, h⟩
    · rcases QInf.fmin_eq_or d0 (.val (distSq u c0)) with h0 | h0
      · exact Or.inl (by rw [List.foldl_cons, h, h0])
      · exact Or.inr ⟨c0, List.mem_cons_self c0 l, by rw [List.foldl_cons, h, h0]⟩
    · exact Or.inr ⟨c, List.mem_cons_of_mem c0 hc, by rw [List.foldl_cons, h]⟩

/-- The core of C4 in orientation-free form: the fold over the
candidates that weakly dominate the bid `(u1, u2)` within `pts`. -/
theorem dp_aux (u1 u2 : Util) (pts : List (Util × Util)) :
    QInf.val 0 ≤ (pts.filterMap (fun point =>
        if (point.1 ≥ u1 ∨ isclose point.1 u1 = true)
            ∧ (point.2 ≥ u2 ∨ isclose point.2 u2 = true)
        then some (point.1, point.2) else none)).foldl
          (fun d c => QInf.fmin d (.val (distSq (u1, u2) c))) QInf.inf
    ∧ ((pts.filterMap (fun point =>
        if (point.1 ≥ u1 ∨ isclose point.1 u1 = true)
            ∧ (point.2 ≥ u2 ∨ isclose point.2 u2 = true)
        then some (point.1, point.2) else none)).foldl
          (fun d c => QInf.fmin d (.val (distSq (u1, u2) c))) QInf.inf = QInf.val 0
        ↔ (u1, u2) ∈ pts) := by
  constructor
  · exact foldl_fmin_nonneg _ _ _ (QInf.le_infty _)
  constructor
  · intro h
    rcases foldl_fmin_mem_or_init (u1, u2) _ QInf.inf with h0 | ⟨c, hc, h0⟩
    · rw [h] at h0; cases h0
    · rw [h] at h0
      have hd : distSq (u1, u2) c = 0 := by
        have := congrArg (fun x => match x with | QInf.val q => q | QInf.inf => 1) h0
        simpa using this.symm
      have hcb := (distSq_eq_zero_iff (u1, u2) c).mp hd
      rcases List.mem_filterMap.mp hc with ⟨p, hp, hpc⟩
      by_cases hcond : (p.1 ≥ u1 ∨ isclose p.1 u1 = true)
          ∧ (p.2 ≥ u2 ∨ isclose p.2 u2 = true)
      case pos =>
        rw [if_pos hcond] at hpc
        rw [← Option.some.inj hpc] at hcb
        have e1 : u1 = p.1 := congrArg Prod.fst hcb
        have e2 : u2 = p.2 := congrArg Prod.snd hcb
        rw [e1, e2]
        simpa using hp
      case neg => rw [if_neg hcond] at hpc; cases hpc
  · intro hu
    have hc : (u1, u2) ∈ pts.filterMap (fun point =>
        if (point.1 ≥ u1 ∨ isclose point.1 u1 = true)
            ∧ (point.2 ≥ u2 ∨ isclose point.2 u2 = true)
        then some (point.1, point.2) else none) := by
      refine List.mem_filterMap.mpr ⟨(u1, u2), hu, ?_⟩
      rw [if_pos ⟨Or.inl le_rfl, Or.inl le_rfl⟩]
    have hle := foldl_fmin_le_mem (u1, u2) _ QInf.inf _ hc
    rw [distSq_self] at hle
    exact QInf.le_antisymm hle (foldl_fmin_nonneg _ _ _ (QInf.le_infty _))

/-- C4: for every utility pair, seat and Pareto frontier,
`distance_pareto` returns a non-negative value (`+inf` counts as
non-negative), and it returns `0` exactly when the bid's utility pair
coincides with some frontier point.  (Distances are squared throughout;
`Real.sqrt` preserves both sign and zeroness.) -/
theorem distance_pareto_nonneg_zero_iff (utility : Util × Util) (is_b : Bool)
    (front : List (Util × Util)) :
    QInf.val 0 ≤ distance_pareto utility is_b front
    ∧ (distance_pareto utility is_b front = QInf.val 0 ↔ utility ∈ front) := by
  cases is_b
  · have h := dp_aux utility.1 utility.2 front
    simpa only [distance_pareto, Bool.cond_false] using h
  · have h := dp_aux utility.2 utility.1 (front.map (fun p => (p.2, p.1)))
    rw [List.filterMap_map] at h
    have hmem : ((utility.2, utility.1) ∈ front.map (fun p => (p.2, p.1)))
        ↔ utility ∈ front := by
      rw [List.mem_map]
      constructor
      · rintro ⟨p, hp, hpe⟩
        have e1 : p.2 = utility.2 := congrArg Prod.fst hpe
        have e2 : p.1 = utility.1 := congrArg Prod.snd hpe
        rwa [← Prod.ext_iff.mpr ⟨e2, e1⟩]
      · intro hp
        exact ⟨utility, hp, rfl⟩
    rw [hmem] at h
    simpa only [distance_pareto, Bool.cond_true, Function.comp] using h

theorem no_accept_preserves (sp : Specials) (acts : List Action) (st : EvalState)
    (h : ∀ a ∈ acts, a.isAccept = false) :
    (runActionsFrom sp st acts).agreement = st.agreement
    ∧ (runActionsFrom sp st acts).agreement_actor = st.agreement_actor
    ∧ (runActionsFrom sp st acts).agreement_utility = st.agreement_utility := by
  induction acts generalizing st with
  | nil => exact ⟨rfl, rfl, rfl⟩
  | cons a l ih =>
    rw [runActionsFrom_cons]
    cases a with
    | offer actor uA uB => exact ih _ (fun x hx => h x (List.mem_cons_of_mem _ hx))
    | accept actor uA uB =>
      exact absurd (h _ (List.mem_cons_self _ _)) (by simp [Action.isAccept])
    | other => exact ih _ (fun x hx => h x (List.mem_cons_of_mem _ hx))

/-- C2 (amended): for every trace with no Accept action, the reported
`agreement` is false and `agreement_utility` is the zero vector, but the
reported nash/kalai distances are *not* 0 by convention: the source
still computes them as the Euclidean distance from the zero vector to
the nash/kalai point (`evaluate.py` lines 225-226), which is nonzero
whenever the reference point is not itself the origin. -/
theorem no_agreement_reported_metrics (sp : Specials) (acts : List Action)
    (h : ∀ a ∈ acts, a.isAccept = false) :
    (evaluateCore sp acts).evalm.agreement = false
    ∧ (evaluateCore sp acts).evalm.utility_a = 0
    ∧ (evaluateCore sp acts).evalm.utility_b = 0
    ∧ (evaluateCore sp acts).evalm.distance_nashSq = distSq (0, 0) sp.nash
    ∧ (evaluateCore sp acts).evalm.distance_kalaiSq = distSq (0, 0) sp.kalai := by
  obtain ⟨h1, _, h3⟩ := no_accept_preserves sp acts initState h
  exact ⟨h1, congrArg Prod.fst h3, congrArg Prod.snd h3,
    congrArg (fun u => distSq u sp.nash) h3, congrArg (fun u => distSq u sp.kalai) h3⟩

/-- C2 counterexample: a one-offer trace with no Accept against a
domain whose nash point is (0.7, 0.5).  The claim says `distanceToNash`
is reported as 0; the source reports the distance from (0, 0) to the
nash point, whose square is 0.74 ≠ 0 (so the distance `√0.74 ≈ 0.86` is
not 0 either). -/
theorem no_agreement_distance_counterexample :
    (evaluateCore exSpecials exNoAcceptActs).evalm.agreement = false
    ∧ (evaluateCore exSpecials exNoAcceptActs).evalm.distance_nashSq = 37/50
    ∧ (37/50 : Util) ≠ 0 := by
  refine ⟨rfl, ?_, by norm_num⟩
  norm_num [evaluateCore, runActions, stepAction, initState, exSpecials,
    exNoAcceptActs, distSq]

/-- Witness for C2 (amended) at the concrete no-accept trace. -/
theorem no_agreement_reported_metrics_witness :
    (evaluateCore exSpecials exNoAcceptActs).evalm.utility_a = 0
    ∧ (evaluateCore exSpecials exNoAcceptActs).evalm.distance_nashSq
        = distSq (0, 0) exSpecials.nash := by
  have h := no_agreement_reported_metrics exSpecials exNoAcceptActs (by
    intro a ha
    rw [exNoAcceptActs, List.mem_singleton] at ha
    subst ha
    rfl)
  exact ⟨h.2.1, h.2.2.2.1⟩

theorem counts_total_eq_num_moves (sp : Specials) (acts : List Action) (seat : Bool) :
    ((runActions sp acts).counts.get seat).total
      = (runActions sp acts).num_moves.get seat := by
  suffices h : ∀ (l : List Action) (st : EvalState),
      (∀ s, ((st.counts.get s)).total = st.num_moves.get s) →
      ∀ s, (((runActionsFrom sp st l).counts.get s)).total
        = (runActionsFrom sp st l).num_moves.get s by
    exact h acts initState (by intro s; cases s <;> rfl) seat
  intro l
  induction l with
  | nil => intro st hst s; exact hst s
  | cons a l ih =>
    intro st hst s
    rw [runActionsFrom_cons]
    apply ih
    intro s2
    cases a with
    | offer actor uA uB =>
      simp only [stepAction, Pair.get_modify]
      by_cases hsa : s2 = actor
      · rw [if_pos hsa, if_pos hsa, tallyMove_total, hst s2]
      · rw [if_neg hsa, if_neg hsa]
        exact hst s2
    | accept actor uA uB => exact hst s2
    | other => exact hst s2

theorem get_percentage_bounds (x n : ℕ) (h : x ≤ n) :
    0 ≤ get_percentage (x : Util) (n : Util)
    ∧ get_percentage (x : Util) (n : Util) ≤ 100 := by
  unfold get_percentage
  by_cases hn : (n : Util) = 0
  · rw [if_pos hn]
    norm_num
  · rw [if_neg hn]
    have hn0 : 0 < (n : Util) := lt_of_le_of_ne (Nat.cast_nonneg n) (Ne.symm hn)
    have hx : (x : Util) ≤ (n : Util) := Nat.cast_le.mpr h
    constructor
    · positivity
    · have hdiv : (x : Util) / (n : Util) ≤ 1 := (div_le_one hn0).mpr hx
      calc (x : Util) / (n : Util) * 100 ≤ 1 * 100 :=
            mul_le_mul_of_nonneg_right hdiv (by norm_num)
        _ = 100 := one_mul 100

/-- C7: for every session and seat, each class percentage lies in
[0, 100] (all are 0 when the seat made no offers), and `behav_sens`
equals the count ratio (fortunate+nice+concession)/(unfortunate+silent+
selfish) — a non-negative value, with the `inf` sentinel exactly when
the denominator count is 0 (never negative; NaN is not producible). -/
theorem percentages_bounds_and_behav_sens (sp : Specials) (acts : List Action) (seat : Bool) :
    (0 ≤ ((evaluateCore sp acts).dans.get seat).fortunate_pct
      ∧ ((evaluateCore sp acts).dans.get seat).fortunate_pct ≤ 100)
    ∧ (0 ≤ ((evaluateCore sp acts).dans.get seat).selfish_pct
      ∧ ((evaluateCore sp acts).dans.get seat).selfish_pct ≤ 100)
    ∧ (0 ≤ ((evaluateCore sp acts).dans.get seat).concession_pct
      ∧ ((evaluateCore sp acts).dans.get seat).concession_pct ≤ 100)
    ∧ (0 ≤ ((evaluateCore sp acts).dans.get seat).unfortunate_pct
      ∧ ((evaluateCore sp acts).dans.get seat).unfortunate_pct ≤ 100)
    ∧ (0 ≤ ((evaluateCore sp acts).dans.get seat).nice_pct
      ∧ ((evaluateCore sp acts).dans.get seat).nice_pct ≤ 100)
    ∧ (0 ≤ ((evaluateCore sp acts).dans.get seat).silent_pct
      ∧ ((evaluateCore sp acts).dans.get seat).silent_pct ≤ 100)
    ∧ (((evaluateCore sp acts).dans.get seat).num_offers = 0 →
        ((evaluateCore sp acts).dans.get seat).fortunate_pct = 0
        ∧ ((evaluateCore sp acts).dans.get seat).selfish_pct = 0
        ∧ ((evaluateCore sp acts).dans.get seat).concession_pct = 0
        ∧ ((evaluateCore sp acts).dans.get seat).unfortunate_pct = 0
        ∧ ((evaluateCore sp acts).dans.get seat).nice_pct = 0
        ∧ ((evaluateCore sp acts).dans.get seat).silent_pct = 0)
    ∧ QInf.val 0 ≤ ((evaluateCore sp acts).dans.get seat).behav_sens
    ∧ (((evaluateCore sp acts).dans.get seat).behav_sens
        = if ((runActions sp acts).counts.get seat).unfortunate
              + ((runActions sp acts).counts.get seat).silent
              + ((runActions sp acts).counts.get seat).selfish = 0
          then QInf.inf
          else QInf.val
            ((((runActions sp acts).counts.get seat).fortunate
                + ((runActions sp acts).counts.get seat).nice
                + ((runActions sp acts).counts.get seat).concession : Util)
              / (((runActions sp acts).counts.get seat).unfortunate
                + ((runActions sp acts).counts.get seat).silent
                + ((runActions sp acts).counts.get seat).selfish : Util))) := by
  have hrow : (evaluateCore sp acts).dans.get seat
      = dansRowFor (runActions sp acts) seat := by
    cases seat <;> rfl
  have htot := counts_total_eq_num_moves sp acts seat
  rw [hrow]
  set st := runActions sp acts with hst
  set c := st.counts.get seat with hc
  set n := st.num_moves.get seat with hn
  have hb1 : c.fortunate ≤ n := by rw [← htot]; unfold MoveCounts.total; omega
  have hb2 : c.selfish ≤ n := by rw [← htot]; unfold MoveCounts.total; omega
  have hb3 : c.concession ≤ n := by rw [← htot]; unfold MoveCounts.total; omega
  have hb4 : c.unfortunate ≤ n := by rw [← htot]; unfold MoveCounts.total; omega
  have hb5 : c.nice ≤ n := by rw [← htot]; unfold MoveCounts.total; omega
  have hb6 : c.silent ≤ n := by rw [← htot]; unfold MoveCounts.total; omega
  refine ⟨get_percentage_bounds _ _ hb1, get_percentage_bounds _ _ hb2,
    get_percentage_bounds _ _ hb3, get_percentage_bounds _ _ hb4,
    get_percentage_bounds _ _ hb5, get_percentage_bounds _ _ hb6, ?_, ?_, ?_⟩
  · intro h0
    have h0n : n = 0 := h0
    simp [dansRowFor, ← hc, ← hn, h0n, get_percentage]
  · simp only [dansRowFor, ← hc, ← hn]
    by_cases hd : c.unfortunate + c.silent + c.selfish = 0
    · rw [if_pos hd]
      trivial
    · rw [if_neg hd]
      exact QInf.val_le_val.mpr (div_nonneg (by positivity) (by positivity))
  · simp only [dansRowFor, ← hc, ← hn]
    by_cases hd : c.unfortunate + c.silent + c.selfish = 0
    · rw [if_pos hd, if_pos hd]
    · rw [if_neg hd, if_neg hd]
      push_cast
      rfl

theorem QInf.sum_singleton (d : QInf) : QInf.sum [d] = d := by
  rw [QInf.sum, List.foldl_cons, List.foldl_nil, QInf.zero_add]

theorem QInf.sum_singleton_append (l : List QInf) (d : QInf) :
    QInf.sum (l ++ [d]) = (QInf.sum l).add d := by
  rw [QInf.sum_append, QInf.sum_singleton]

theorem seatDistances_offer_step (sp : Specials) (st : EvalState)
    (actor seat : Bool) (uA uB : Util) :
    seatDistances (stepAction sp st (.offer actor uA uB)) seat
      = seatDistances st seat
        ++ (if actor == seat
            then [distance_pareto (uA, uB) actor sp.pareto_front] else []) := by
  cases hb : (actor == seat)
  · have hne : actor ≠ seat := by simpa using hb
    simp [stepAction, seatDistances, List.filterMap_append, hb, hne]
  · have heq : actor = seat := by simpa using hb
    subst heq
    simp [stepAction, seatDistances, List.filterMap_append]

theorem seatDistances_invariant (sp : Specials) (acts : List Action) (seat : Bool) :
    (runActions sp acts).total_distance.get seat
      = QInf.sum (seatDistances (runActions sp acts) seat)
    ∧ (runActions sp acts).num_moves.get seat
      = (seatDistances (runActions sp acts) seat).length := by
  suffices h : ∀ (l : List Action) (st : EvalState),
      (st.total_distance.get seat = QInf.sum (seatDistances st seat)
        ∧ st.num_moves.get seat = (seatDistances st seat).length) →
      ((runActionsFrom sp st l).total_distance.get seat
          = QInf.sum (seatDistances (runActionsFrom sp st l) seat)
        ∧ (runActionsFrom sp st l).num_moves.get seat
          = (seatDistances (runActionsFrom sp st l) seat).length) by
    exact h acts initState (by cases seat <;> simp [initState, seatDistances, QInf.sum, Pair.get])
  intro l
  induction l with
  | nil => intro st hst; exact hst
  | cons a l ih =>
    intro st hst
    rw [runActionsFrom_cons]
    apply ih
    cases a with
    | offer actor uA uB =>
      have hstep := seatDistances_offer_step sp st actor seat uA uB
      have htd : (stepAction sp st (.offer actor uA uB)).total_distance.get seat
          = if seat = actor
            then (st.total_distance.get seat).add
              (distance_pareto (uA, uB) actor sp.pareto_front)
            else st.total_distance.get seat := by
        simp only [stepAction, Pair.get_modify]
      have hnm : (stepAction sp st (.offer actor uA uB)).num_moves.get seat
          = if seat = actor then st.num_moves.get seat + 1
            else st.num_moves.get seat := by
        simp only [stepAction, Pair.get_modify]
      by_cases hsa : seat = actor
      · subst hsa
        rw [htd, hnm, hstep, if_pos rfl, if_pos rfl, if_pos (beq_self_eq_true seat)]
        constructor
        · rw [QInf.sum_singleton_append, ← hst.1]
        · rw [List.length_append, ← hst.2]
          simp
      · have hba : (actor == seat) = false :=
          beq_eq_false_iff_ne.mpr (fun he => hsa he.symm)
        rw [htd, hnm, hstep, if_neg hsa, if_neg hsa, hba,
          if_neg Bool.false_ne_true, List.append_nil]
        exact hst
    | accept actor uA uB => exact hst
    | other => exact hst

/-- C5 (amended): for every seat, `pref_sens` equals the running total
of that seat's per-offer Pareto distances divided by `num_offers` — with
a `+inf` per-offer distance *propagating* into the total (and hence into
the average), not ignored; when `num_offers = 0` the running total is
still 0, so `pref_sens` is 0. -/
theorem pref_sens_running_total (sp : Specials) (acts : List Action) (seat : Bool) :
    ((evaluateCore sp acts).dans.get seat).num_offers
        = (seatDistances (runActions sp acts) seat).length
    ∧ ((evaluateCore sp acts).dans.get seat).pref_sens
        = (if (seatDistances (runActions sp acts) seat).length = 0 then QInf.val 0
           else (QInf.sum (seatDistances (runActions sp acts) seat)).div
             ((seatDistances (runActions sp acts) seat).length : Util)) := by
  have hrow : (evaluateCore sp acts).dans.get seat
      = dansRowFor (runActions sp acts) seat := by
    cases seat <;> rfl
  obtain ⟨h1, h2⟩ := seatDistances_invariant sp acts seat
  rw [hrow]
  refine ⟨h2, ?_⟩
  simp only [dansRowFor]
  by_cases hn : (runActions sp acts).num_moves.get seat = 0
  · rw [if_neg (by simpa using hn), if_pos (by rw [← h2]; exact hn)]
    rw [h1]
    have hempty : seatDistances (runActions sp acts) seat = [] :=
      List.length_eq_zero.mp (h2 ▸ hn)
    rw [hempty]
    rfl
  · rw [if_pos hn, if_neg (by rw [← h2]; exact hn)]
    rw [h1, h2]

/-- C5 counterexample: one offer whose bid has no weakly dominating
frontier candidate, so its per-offer distance is the `+inf` sentinel.
The source computes `pref_sens = inf` (the sentinel enters the running
total and the average), while the claim's reading — ignore `+inf`
entries — yields 0. -/
theorem pref_sens_inf_counterexample :
    ((evaluateCore exInfSpecials exInfActs).dans.get false).pref_sens = QInf.inf
    ∧ claimPrefSens (seatDistances (runActions exInfSpecials exInfActs) false)
        ((evaluateCore exInfSpecials exInfActs).dans.get false).num_offers
        = QInf.val 0
    ∧ QInf.inf ≠ QInf.val 0 := by
  have hd : distance_pareto (9/10, 9/10) false exInfSpecials.pareto_front = QInf.inf := by
    norm_num [distance_pareto, exInfSpecials, isclose, List.filterMap_cons,
      List.filterMap_nil, List.foldl_nil, abs_of_nonneg, sup_eq_max, max_def]
  have hrun : runActions exInfSpecials exInfActs
      = stepAction exInfSpecials initState (.offer false (9/10) (9/10)) := by
    rw [exInfActs, runActions, runActionsFrom_cons, runActionsFrom_nil]
  refine ⟨?_, ?_, by simp⟩
  · show (dansRowFor (runActions exInfSpecials exInfActs) false).pref_sens = QInf.inf
    rw [hrun]
    simp [dansRowFor, stepAction, initState, Pair.modify, Pair.get, hd,
      QInf.add, QInf.div]
  · rw [hrun]
    show claimPrefSens _ (dansRowFor _ false).num_offers = QInf.val 0
    simp [dansRowFor, stepAction, initState, Pair.modify, Pair.get,
      seatDistances, hd, claimPrefSens, QInf.sum, QInf.div]

/-- C9: the session metrics computation is deterministic and
idempotent: its returned metrics do not depend on the prior contents of
the output files it appends to, so running it a second time — on the
identical trace and domain reference, over the file state left by the
first run — returns identical `SessionMetrics`. -/
theorem evaluate_deterministic_idempotent (sp : Specials) (acts : List Action)
    (fs : List CsvLine) :
    (evaluateFS sp acts fs).1 = evaluateCore sp acts
    ∧ (evaluateFS sp acts ((evaluateFS sp acts fs).2)).1 = (evaluateFS sp acts fs).1 :=
  ⟨rfl, rfl⟩

theorem stepAction_moveData_congr (sp : Specials) (a : Action) (st1 st2 : EvalState)
    (h : st1.moveData = st2.moveData) :
    (stepAction sp st1 a).moveData = (stepAction sp st2 a).moveData := by
  cases a with
  | offer actor uA uB =>
    have h1 : st1.num_moves = st2.num_moves := congrArg MoveData.num_moves h
    have h2 : st1.utility_prev = st2.utility_prev := congrArg MoveData.utility_prev h
    have h3 : st1.counts = st2.counts := congrArg MoveData.counts h
    have h4 : st1.total_distance = st2.total_distance := congrArg MoveData.total_distance h
    have h5 : st1.writes = st2.writes := congrArg MoveData.writes h
    simp only [stepAction, EvalState.moveData, h1, h2, h3, h4, h5]
  | accept actor uA uB => exact h
  | other => exact h

theorem moveData_filter_offers (sp : Specials) (acts : List Action) :
    ∀ st1 st2 : EvalState, st1.moveData = st2.moveData →
      (runActionsFrom sp st1 acts).moveData
        = (runActionsFrom sp st2 (acts.filter Action.isOffer)).moveData := by
  induction acts with
  | nil => intro st1 st2 h; simpa using h
  | cons a l ih =>
    intro st1 st2 h
    cases a with
    | offer actor uA uB =>
      rw [runActionsFrom_cons,
        show (Action.offer actor uA uB :: l).filter Action.isOffer
          = Action.offer actor uA uB :: l.filter Action.isOffer by
            simp [List.filter_cons, Action.isOffer],
        runActionsFrom_cons]
      exact ih _ _ (stepAction_moveData_congr sp _ _ _ h)
    | accept actor uA uB =>
      rw [runActionsFrom_cons,
        show (Action.accept actor uA uB :: l).filter Action.isOffer
          = l.filter Action.isOffer by simp [List.filter_cons, Action.isOffer]]
      exact ih _ _ h
    | other =>
      rw [runActionsFrom_cons,
        show (Action.other :: l).filter Action.isOffer = l.filter Action.isOffer by
          simp [List.filter_cons, Action.isOffer]]
      exact ih _ _ h

theorem agreement_fields_last_accept (sp : Specials) (st : EvalState) (acts : List Action) :
    ∀ (actor : Bool) (uA uB : Util),
      lastAcceptOf acts = some (.accept actor uA uB) →
      (runActionsFrom sp st acts).agreement = true
      ∧ (runActionsFrom sp st acts).agreement_actor = some actor
      ∧ (runActionsFrom sp st acts).agreement_utility = (uA, uB) := by
  induction acts using List.reverseRecOn with
  | nil =>
    intro actor uA uB h
    exact absurd h (by simp [lastAcceptOf])
  | append_singleton l a ih =>
    intro actor uA uB h
    rw [lastAcceptOf, List.foldl_append, List.foldl_cons, List.foldl_nil] at h
    have hrun : runActionsFrom sp st (l ++ [a])
        = stepAction sp (runActionsFrom sp st l) a := by
      rw [runActionsFrom, List.foldl_append, List.foldl_cons, List.foldl_nil]
      rfl
    cases a with
    | accept b v1 v2 =>
      simp only [Action.isAccept, cond_true] at h
      have he := Option.some.inj h
      rw [hrun]
      cases he
      exact ⟨rfl, rfl, rfl⟩
    | offer b v1 v2 =>
      simp only [Action.isAccept, cond_false] at h
      have hih := ih actor uA uB h
      rw [hrun]
      exact hih
    | other =>
      simp only [Action.isAccept, cond_false] at h
      have hih := ih actor uA uB h
      rw [hrun]
      exact hih

/-- C10: if the trace contains at least one Accept, the metrics report
`agreement = true` with the actor and utility pair of the *last* Accept
(each Accept overwrites the previous one), and Accepts contribute
nothing to offer counts, move-class counters or distance totals: the
per-seat dans rows equal those of the offers-only trace. -/
theorem accept_last_overwrites (sp : Specials) (acts : List Action) (actor : Bool)
    (uA uB : Util) (h : lastAcceptOf acts = some (.accept actor uA uB)) :
    (evaluateCore sp acts).evalm.agreement = true
    ∧ (evaluateCore sp acts).evalm.agreed_by = some actor
    ∧ (evaluateCore sp acts).evalm.utility_a = uA
    ∧ (evaluateCore sp acts).evalm.utility_b = uB
    ∧ (evaluateCore sp acts).dans = (evaluateCore sp (acts.filter Action.isOffer)).dans := by
  obtain ⟨h1, h2, h3⟩ := agreement_fields_last_accept sp initState acts actor uA uB h
  refine ⟨h1, h2, congrArg Prod.fst h3, congrArg Prod.snd h3, ?_⟩
  have hmd := moveData_filter_offers sp acts initState initState rfl
  have hnum : (runActions sp acts).num_moves
      = (runActions sp (acts.filter Action.isOffer)).num_moves :=
    congrArg MoveData.num_moves hmd
  have hcnt : (runActions sp acts).counts
      = (runActions sp (acts.filter Action.isOffer)).counts :=
    congrArg MoveData.counts hmd
  have htdist : (runActions sp acts).total_distance
      = (runActions sp (acts.filter Action.isOffer)).total_distance :=
    congrArg MoveData.total_distance hmd
  have hrows : ∀ seat, dansRowFor (runActions sp acts) seat
      = dansRowFor (runActions sp (acts.filter Action.isOffer)) seat := by
    intro seat
    unfold dansRowFor
    rw [hnum, hcnt, htdist]
  show (⟨dansRowFor (runActions sp acts) false, dansRowFor (runActions sp acts) true⟩ : Pair DansRow)
      = ⟨dansRowFor (runActions sp (acts.filter Action.isOffer)) false,
         dansRowFor (runActions sp (acts.filter Action.isOffer)) true⟩
  rw [hrows false, hrows true]

/-- Witness for C10 at a trace with two Accepts: the later Accept (by
seat B at utility (0.6, 0.4)) overwrites the earlier one (by seat A at
(0.5, 0.5)). -/
theorem accept_last_overwrites_witness :
    (evaluateCore exSpecials exOverwriteActs).evalm.agreement = true
    ∧ (evaluateCore exSpecials exOverwriteActs).evalm.agreed_by = some true
    ∧ (evaluateCore exSpecials exOverwriteActs).evalm.utility_a = 3/5 := by
  have h := accept_last_overwrites exSpecials exOverwriteActs true (3/5) (2/5) (by rfl)
  exact ⟨h.1, h.2.1, h.2.2.1⟩

theorem evalTotals_foldl_char (l : List EvalRow) :
    ∀ (m : ℕ → EvalTotals) (sid : ℕ),
      (l.foldl evalTotalsStep m) sid
        = { num_agreements := (m sid).num_agreements
              + (l.filter (fun r => r.agreement && r.session_id == sid)).length
            utility_a := (m sid).utility_a
              + ((l.filter (fun r => r.agreement && r.session_id == sid)).map EvalRow.utility_a).sum
            utility_b := (m sid).utility_b
              + ((l.filter (fun r => r.agreement && r.session_id == sid)).map EvalRow.utility_b).sum
            distance_nash := (m sid).distance_nash
              + ((l.filter (fun r => r.agreement && r.session_id == sid)).map EvalRow.distance_nash).sum
            distance_kalai := (m sid).distance_kalai
              + ((l.filter (fun r => r.agreement && r.session_id == sid)).map EvalRow.distance_kalai).sum } := by
  induction l with
  | nil => intro m sid; simp
  | cons r l ih =>
    intro m sid
    rw [List.foldl_cons, ih]
    by_cases hag : r.agreement = true
    · by_cases hsid : r.session_id = sid
      · have hstep : (evalTotalsStep m r) sid = incTotals (m sid) r := by
          rw [evalTotalsStep, if_pos hag, ← hsid, Function.update_same]
        have hfl : (r :: l).filter (fun x => x.agreement && x.session_id == sid)
            = r :: l.filter (fun x => x.agreement && x.session_id == sid) := by
          simp [List.filter_cons, hag, hsid]
        rw [hstep, hfl]
        simp only [incTotals, List.length_cons, List.map_cons, List.sum_cons,
          EvalTotals.mk.injEq]
        refine ⟨by omega, by ring, by ring, by ring, by ring⟩
      · have hstep : (evalTotalsStep m r) sid = m sid := by
          rw [evalTotalsStep, if_pos hag]
          exact Function.update_noteq (fun he => hsid he.symm) _ m
        have hfl : (r :: l).filter (fun x => x.agreement && x.session_id == sid)
            = l.filter (fun x => x.agreement && x.session_id == sid) := by
          simp [List.filter_cons, hsid]
        rw [hstep, hfl]
    · have hstep : (evalTotalsStep m r) sid = m sid := by
        rw [evalTotalsStep, if_neg hag]
      have hfl : (r :: l).filter (fun x => x.agreement && x.session_id == sid)
          = l.filter (fun x => x.agreement && x.session_id == sid) := by
        simp [List.filter_cons, hag]
      rw [hstep, hfl]

theorem foldl_totals_flatten (L : List (List EvalRow)) :
    ∀ m : ℕ → EvalTotals,
      L.foldl (fun m2 ev => ev.foldl evalTotalsStep m2) m
        = (L.flatten).foldl evalTotalsStep m := by
  induction L with
  | nil => intro m; simp
  | cons ev L ih =>
    intro m
    rw [List.foldl_cons, ih, List.flatten_cons, List.foldl_append]

theorem evaluation_totals_char (evs : List (List EvalRow)) (sid : ℕ) :
    evaluation_totals evs sid
      = { num_agreements := (agreedRows evs sid).length
          utility_a := ((agreedRows evs sid).map EvalRow.utility_a).sum
          utility_b := ((agreedRows evs sid).map EvalRow.utility_b).sum
          distance_nash := ((agreedRows evs sid).map EvalRow.distance_nash).sum
          distance_kalai := ((agreedRows evs sid).map EvalRow.distance_kalai).sum } := by
  rw [evaluation_totals, foldl_totals_flatten, evalTotals_foldl_char]
  simp [EvalTotals.zero, agreedRows]

/-- C3: for every output row of the ordinal-keyed evaluation aggregate,
`num_agreements` is the true count of agreement-reaching runs for that
ordinal across all tournaments, and `utility_a`, `utility_b`,
`distance_nash`, `distance_kalai` are the sums of those fields over
only the agreement-reaching runs divided by that count — reported as 0
when the count is 0. -/
theorem aggregate_divides_by_agreement_count (evs : List (List EvalRow))
    (row : AggEvalRow) (hrow : row ∈ evaluation_aggregate evs) :
    row.num_agreements = (agreedRows evs row.session_id).length
    ∧ row.utility_a
        = (if (agreedRows evs row.session_id).length = 0 then 0
           else ((agreedRows evs row.session_id).map EvalRow.utility_a).sum
             / ((agreedRows evs row.session_id).length : Util))
    ∧ row.utility_b
        = (if (agreedRows evs row.session_id).length = 0 then 0
           else ((agreedRows evs row.session_id).map EvalRow.utility_b).sum
             / ((agreedRows evs row.session_id).length : Util))
    ∧ row.distance_nash
        = (if (agreedRows evs row.session_id).length = 0 then 0
           else ((agreedRows evs row.session_id).map EvalRow.distance_nash).sum
             / ((agreedRows evs row.session_id).length : Util))
    ∧ row.distance_kalai
        = (if (agreedRows evs row.session_id).length = 0 then 0
           else ((agreedRows evs row.session_id).map EvalRow.distance_kalai).sum
             / ((agreedRows evs row.session_id).length : Util)) := by
  cases evs with
  | nil => simp [evaluation_aggregate] at hrow
  | cons ev0 rest =>
    rw [evaluation_aggregate] at hrow
    obtain ⟨r, _, rfl⟩ := List.mem_map.mp hrow
    have hchar := evaluation_totals_char (ev0 :: rest) r.session_id
    have hsid : (aggEvalRowFor (ev0 :: rest) r).session_id = r.session_id := rfl
    rw [hsid]
    simp only [aggEvalRowFor, hchar]
    by_cases h0 : (agreedRows (ev0 :: rest) r.session_id).length = 0 <;>
      simp [h0]

/-- Witness for C3 at Scenario 3: two tournaments, ordinal 1; run 1
agrees with utility (0.6, 0.4), run 2 does not.  The aggregated
`utility_a` is 0.6 (divided by the 1 agreeing run, not by 2) and
`num_agreements` is 1. -/
theorem aggregate_divides_witness :
    (aggEvalRowFor exEvs exEvalRow1).num_agreements = 1
    ∧ (aggEvalRowFor exEvs exEvalRow1).utility_a = 3/5 := by
  have h := aggregate_divides_by_agreement_count exEvs (aggEvalRowFor exEvs exEvalRow1)
    (by simp [evaluation_aggregate, exEvs])
  have hrows : agreedRows exEvs (aggEvalRowFor exEvs exEvalRow1).session_id
      = [exEvalRow1] := by
    show agreedRows exEvs 1 = [exEvalRow1]
    simp [agreedRows, exEvs, exEvalRow1, exEvalRow2]
  constructor
  · rw [h.1, hrows]
    rfl
  · rw [h.2.1, hrows]
    norm_num [exEvalRow1]

theorem dansTotals_foldl_char (l : List DansCsvRow) :
    ∀ (m : ℕ × Bool → DansTotals) (sid : ℕ) (agent : Bool),
      (l.foldl dansTotalsStep m) (sid, agent)
        = { num_offers := (m (sid, agent)).num_offers
              + ((l.filter (fun r => r.session_id == sid && r.agent == agent)).map DansCsvRow.num_offers).sum
            fortunate_pct := (m (sid, agent)).fortunate_pct
              + ((l.filter (fun r => r.session_id == sid && r.agent == agent)).map DansCsvRow.fortunate_pct).sum
            selfish_pct := (m (sid, agent)).selfish_pct
              + ((l.filter (fun r => r.session_id == sid && r.agent == agent)).map DansCsvRow.selfish_pct).sum
            concession_pct := (m (sid, agent)).concession_pct
              + ((l.filter (fun r => r.session_id == sid && r.agent == agent)).map DansCsvRow.concession_pct).sum
            unfortunate_pct := (m (sid, agent)).unfortunate_pct
              + ((l.filter (fun r => r.session_id == sid && r.agent == agent)).map DansCsvRow.unfortunate_pct).sum
            nice_pct := (m (sid, agent)).nice_pct
              + ((l.filter (fun r => r.session_id == sid && r.agent == agent)).map DansCsvRow.nice_pct).sum
            silent_pct := (m (sid, agent)).silent_pct
              + ((l.filter (fun r => r.session_id == sid && r.agent == agent)).map DansCsvRow.silent_pct).sum
            pref_sens := (m (sid, agent)).pref_sens.add
              (QInf.sum ((l.filter (fun r => r.session_id == sid && r.agent == agent)).map DansCsvRow.pref_sens)) } := by
  induction l with
  | nil =>
    intro m sid agent
    have : ∀ x : QInf, x.add (QInf.sum []) = x := by
      intro x
      cases x <;> simp [QInf.sum, QInf.add]
    simp [this]
  | cons r l ih =>
    intro m sid agent
    rw [List.foldl_cons, ih]
    by_cases hk : (r.session_id, r.agent) = (sid, agent)
    · have hsid : r.session_id = sid := congrArg Prod.fst hk
      have hagt : r.agent = agent := congrArg Prod.snd hk
      have hstep : (dansTotalsStep m r) (sid, agent) = incDans (m (sid, agent)) r := by
        rw [dansTotalsStep, ← hk, Function.update_same]
      have hfl : (r :: l).filter (fun x => x.session_id == sid && x.agent == agent)
          = r :: l.filter (fun x => x.session_id == sid && x.agent == agent) := by
        simp [List.filter_cons, hsid, hagt]
      rw [hstep, hfl]
      simp only [incDans, List.map_cons, List.sum_cons, QInf.sum_cons,
        DansTotals.mk.injEq]
      refine ⟨by ring, by ring, by ring, by ring, by ring, by ring, by ring, ?_⟩
      rw [QInf.add_assoc]
    · have hstep : (dansTotalsStep m r) (sid, agent) = m (sid, agent) := by
        rw [dansTotalsStep]
        exact Function.update_noteq (fun he => hk he.symm) _ m
      have hfl : (r :: l).filter (fun x => x.session_id == sid && x.agent == agent)
          = l.filter (fun x => x.session_id == sid && x.agent == agent) := by
        have : ¬ (r.session_id = sid ∧ r.agent = agent) := by
          intro ⟨e1, e2⟩
          exact hk (Prod.ext_iff.mpr ⟨e1, e2⟩)
        simp [List.filter_cons]
        intro h1 h2
        exact absurd ⟨h1, h2⟩ this
      rw [hstep, hfl]

theorem foldl_dans_flatten (L : List (List DansCsvRow)) :
    ∀ m : ℕ × Bool → DansTotals,
      L.foldl (fun m2 d => d.foldl dansTotalsStep m2) m
        = (L.flatten).foldl dansTotalsStep m := by
  induction L with
  | nil => intro m; simp
  | cons d L ih =>
    intro m
    rw [List.foldl_cons, ih, List.flatten_cons, List.foldl_append]

theorem dans_totals_char (ds : List (List DansCsvRow)) (sid : ℕ) (agent : Bool) :
    dans_totals ds (sid, agent)
      = { num_offers := ((dansGroup ds sid agent).map DansCsvRow.num_offers).sum
          fortunate_pct := ((dansGroup ds sid agent).map DansCsvRow.fortunate_pct).sum
          selfish_pct := ((dansGroup ds sid agent).map DansCsvRow.selfish_pct).sum
          concession_pct := ((dansGroup ds sid agent).map DansCsvRow.concession_pct).sum
          unfortunate_pct := ((dansGroup ds sid agent).map DansCsvRow.unfortunate_pct).sum
          nice_pct := ((dansGroup ds sid agent).map DansCsvRow.nice_pct).sum
          silent_pct := ((dansGroup ds sid agent).map DansCsvRow.silent_pct).sum
          pref_sens := QInf.sum ((dansGroup ds sid agent).map DansCsvRow.pref_sens) } := by
  rw [dans_totals, foldl_dans_flatten, dansTotals_foldl_char]
  have hz : ∀ x : QInf, (QInf.val 0).add x = x := QInf.zero_add
  simp [DansTotals.zero, dansGroup, hz]

/-- C6 (amended): in the ordinal-keyed dans aggregation, for every
(ordinal, seat) key, the per-seat class percentages, `num_offers` and
`pref_sens` are summed over *all* member runs — the agreement flag is
never consulted (the dans CSV does not even carry it) — and each
percentage/sensitivity sum is divided by the number of tournaments (the
total number of runs contributing to the group), while `num_offers`
stays a plain total; `behav_sens` is not summed at all but recomputed
from the averaged percentages. -/
theorem dans_aggregate_sums_all_runs (ds : List (List DansCsvRow)) (sid : ℕ)
    (agent : Bool) :
    (dansAggRowFor ds sid agent).num_offers
        = ((dansGroup ds sid agent).map DansCsvRow.num_offers).sum
    ∧ (dansAggRowFor ds sid agent).fortunate_pct
        = ((dansGroup ds sid agent).map DansCsvRow.fortunate_pct).sum / (ds.length : Util)
    ∧ (dansAggRowFor ds sid agent).selfish_pct
        = ((dansGroup ds sid agent).map DansCsvRow.selfish_pct).sum / (ds.length : Util)
    ∧ (dansAggRowFor ds sid agent).concession_pct
        = ((dansGroup ds sid agent).map DansCsvRow.concession_pct).sum / (ds.length : Util)
    ∧ (dansAggRowFor ds sid agent).unfortunate_pct
        = ((dansGroup ds sid agent).map DansCsvRow.unfortunate_pct).sum / (ds.length : Util)
    ∧ (dansAggRowFor ds sid agent).nice_pct
        = ((dansGroup ds sid agent).map DansCsvRow.nice_pct).sum / (ds.length : Util)
    ∧ (dansAggRowFor ds sid agent).silent_pct
        = ((dansGroup ds sid agent).map DansCsvRow.silent_pct).sum / (ds.length : Util)
    ∧ (dansAggRowFor ds sid agent).pref_sens
        = (QInf.sum ((dansGroup ds sid agent).map DansCsvRow.pref_sens)).div (ds.length : Util)
    ∧ (dansAggRowFor ds sid agent).behav_sens
        = (if (dansAggRowFor ds sid agent).unfortunate_pct
              + (dansAggRowFor ds sid agent).silent_pct
              + (dansAggRowFor ds sid agent).selfish_pct = 0
           then QInf.inf
           else QInf.val
             (((dansAggRowFor ds sid agent).fortunate_pct
                + (dansAggRowFor ds sid agent).nice_pct
                + (dansAggRowFor ds sid agent).concession_pct)
               / ((dansAggRowFor ds sid agent).unfortunate_pct
                + (dansAggRowFor ds sid agent).silent_pct
                + (dansAggRowFor ds sid agent).selfish_pct))) := by
  have hchar := dans_totals_char ds sid agent
  refine ⟨?_, ?_, ?_, ?_, ?_, ?_, ?_, ?_, rfl⟩ <;>
    simp only [dansAggRowFor, hchar]

/-- C6 counterexample: two tournaments' dans rows for (ordinal 1, seat
A) both report 100% fortunate moves, while only run 1's session reached
agreement (see `exEvs`: `num_agreements = 1`).  The source averages over
all runs: (100+100)/2 = 100; the claim's rule — sum only over agreeing
runs, divide by total runs — gives 100/2 = 50 ≠ 100. -/
theorem dans_aggregate_counterexample :
    (dansAggRowFor exDans 1 false).fortunate_pct = 100
    ∧ claimAggregatedField [(true, 100), (false, 100)] = 50
    ∧ (evaluation_totals exEvs 1).num_agreements = 1
    ∧ (100 : Util) ≠ 50 := by
  refine ⟨?_, ?_, ?_, by norm_num⟩
  · rw [show (dansAggRowFor exDans 1 false).fortunate_pct
        = (dans_totals exDans (1, false)).fortunate_pct / (exDans.length : Util)
      from rfl]
    rw [dans_totals_char]
    have hg : dansGroup exDans 1 false = [exDansRow, exDansRow] := by
      simp [dansGroup, exDans, exDansRow]
    rw [hg]
    norm_num [exDansRow, exDans]
  · norm_num [claimAggregatedField]
  · rw [evaluation_totals_char]
    have hg : agreedRows exEvs 1 = [exEvalRow1] := by
      simp [agreedRows, exEvs, exEvalRow1, exEvalRow2]
    rw [hg]
    rfl

/-- C8 (amended): if the domain reference (specials) file is absent or
unreadable, `evaluate` fails before computing anything: the `open` at
lines 121-127 raises, unhandled, so *no* metrics for that session —
behavioral metrics included — are computed or reported, and the
exception propagates to the caller (which has no handler either). -/
theorem missing_specials_aborts (acts : List Action) :
    evaluate none acts = .error .fileNotFound := rfl

/-- C8 counterexample: with the specials file missing, even a trace
full of offers produces an error and no `SessionMetrics` value at all —
the behavioral (non-distance) metrics are not "still computed and
reported", and nothing in the source turns this into a per-domain
skip. -/
theorem missing_specials_counterexample :
    evaluate none exScenarioActs = .error .fileNotFound
    ∧ (evaluate none exScenarioActs).isOk = false :=
  ⟨rfl, rfl⟩

/-- Witness for C7 at Scenario 1 (offers only by seat A; seat B makes
no offers, so its percentages are all 0). -/
theorem percentages_bounds_witness :
    (0 ≤ ((evaluateCore exSpecials exScenarioActs).dans.get false).fortunate_pct
      ∧ ((evaluateCore exSpecials exScenarioActs).dans.get false).fortunate_pct ≤ 100)
    ∧ ((evaluateCore exSpecials exScenarioActs).dans.get true).fortunate_pct = 0 := by
  have h1 := percentages_bounds_and_behav_sens exSpecials exScenarioActs false
  have h2 := percentages_bounds_and_behav_sens exSpecials exScenarioActs true
  exact ⟨h1.1, (h2.2.2.2.2.2.2.1 (by rfl)).1⟩

end CAIEval
